import Mathlib

/-!
Verification development for the `jflib` command-watcher module
(`jflib/command_watcher.py`).

The module launches a child process, drains its two output pipes through two
reader threads into one shared queue, and logs every captured line into an
in-memory buffering log handler.  The definitions below are a shallow
embedding of that module:

* bytes and decoded codepoints are `Nat`;
* a captured raw line is a `List Nat` of bytes;
* the shared queue content is a finite list of `Option (List Nat × Stream)`
  items, `none` being the end-of-stream sentinel a reader pushes last
  (`Process._stdout_stderr_reader`); thread scheduling is modelled by
  quantifying over all interleavings of the two readers' push sequences;
* the consumer loop of `Process.__init__` (lines 712-722) is the function
  `consumeLoop`; strict UTF-8 decoding (`bytes.decode('utf-8')`) is the
  function `utf8Decode`, returning `none` exactly on invalid input, and a
  decode failure is propagated as an `Except.error` just as the Python
  `UnicodeDecodeError` propagates out of `__init__`;
* the log store is `LoggingHandler`, a list of `LogRecord`s; `emit` mirrors
  `LoggingHandler.emit` together with the inherited
  `logging.handlers.BufferingHandler` behaviour: append, then, when the
  buffer has reached the capacity of 1000000 records, `flush`, which in
  `BufferingHandler` zaps the buffer to empty;
* wall-clock timestamps are abstracted to a tick counter threaded through
  the run (`LogRecord.created`); the `strftime` calendar rendering of the
  formatter is an external facility and is abstracted to the decimal
  rendering of that tick;
* the observable side effects of `Process.__init__` (logging, spawning the
  child, starting the reader threads, consuming the sentinels, waiting for
  the child) are recorded in an `Effect` trace so that ordering statements
  about construction and completion can be made.

The string form of `Process.args` (tokenised with `shlex.split`) is outside
every claim; commands are modelled in their argument-vector form.
-/

namespace CommandWatcher

/-- Log level constant for captured stderr lines (`command_watcher.py`
line 143: `STDERR = 35`). -/
def STDERR : Nat := 35

/-- Log level constant for captured stdout lines (`command_watcher.py`
line 145: `STDOUT = 5`). -/
def STDOUT : Nat := 5

/-- The standard `logging.INFO` level used by `log.info` calls. -/
def INFO : Nat := 20

/-- Buffer capacity passed to `BufferingHandler.__init__` in
`LoggingHandler.__init__` (line 159: `capacity=1000000`). -/
def capacity : Nat := 1000000

/-- The two captured child streams (`capturing.Stream`). -/
inductive Stream where
  | stdout
  | stderr
deriving DecidableEq

/-- Codepoints of a string literal, for log message texts. -/
def strCps (s : String) : List Nat := s.data.map Char.toNat

/-- Whether a continuation byte is in range `0x80 .. 0xBF`. -/
def contByte (b : Nat) : Bool := decide (0x80 ≤ b ∧ b ≤ 0xBF)

/-- Allowed range of the first continuation byte of a three-byte sequence:
`0xE0` forbids overlong encodings, `0xED` forbids surrogates. -/
def cont3first (b0 b1 : Nat) : Bool :=
  if b0 = 0xE0 then decide (0xA0 ≤ b1 ∧ b1 ≤ 0xBF)
  else if b0 = 0xED then decide (0x80 ≤ b1 ∧ b1 ≤ 0x9F)
  else contByte b1

/-- Allowed range of the first continuation byte of a four-byte sequence:
`0xF0` forbids overlong encodings, `0xF4` caps at `U+10FFFF`. -/
def cont4first (b0 b1 : Nat) : Bool :=
  if b0 = 0xF0 then decide (0x90 ≤ b1 ∧ b1 ≤ 0xBF)
  else if b0 = 0xF4 then decide (0x80 ≤ b1 ∧ b1 ≤ 0x8F)
  else contByte b1

/-- Strict UTF-8 decoding of a byte list into codepoints, the semantics of
Python `bytes.decode('utf-8')` with the default `errors='strict'` policy:
`none` exactly when the input is not valid UTF-8 (lone or out-of-place
continuation bytes, truncated sequences, overlong forms, surrogates,
codepoints beyond `U+10FFFF`). -/
def utf8Decode : List Nat → Option (List Nat)
  | [] => some []
  | b0 :: t0 =>
    if b0 < 0x80 then
      (utf8Decode t0).map (fun cs => b0 :: cs)
    else if 0xC2 ≤ b0 ∧ b0 ≤ 0xDF then
      match t0 with
      | b1 :: t1 =>
        if contByte b1 then
          (utf8Decode t1).map (fun cs => ((b0 - 0xC0) * 0x40 + (b1 - 0x80)) :: cs)
        else none
      | [] => none
    else if 0xE0 ≤ b0 ∧ b0 ≤ 0xEF then
      match t0 with
      | b1 :: b2 :: t2 =>
        if cont3first b0 b1 && contByte b2 then
          (utf8Decode t2).map
            (fun cs => ((b0 - 0xE0) * 0x1000 + (b1 - 0x80) * 0x40 + (b2 - 0x80)) :: cs)
        else none
      | _ => none
    else if 0xF0 ≤ b0 ∧ b0 ≤ 0xF4 then
      match t0 with
      | b1 :: b2 :: b3 :: t3 =>
        if cont4first b0 b1 && contByte b2 && contByte b3 then
          (utf8Decode t3).map
            (fun cs => ((b0 - 0xF0) * 0x40000 + (b1 - 0x80) * 0x1000
              + (b2 - 0x80) * 0x40 + (b3 - 0x80)) :: cs)
        else none
      | _ => none
    else none

/-- The whitespace codepoints stripped by Python `str.strip()`: the 29
codepoints `c` with `chr(c).strip() == ''`. -/
def isPySpace (c : Nat) : Bool :=
  [9, 10, 11, 12, 13, 28, 29, 30, 31, 32, 0x85, 0xA0, 0x1680,
   0x2000, 0x2001, 0x2002, 0x2003, 0x2004, 0x2005, 0x2006, 0x2007,
   0x2008, 0x2009, 0x200A, 0x2028, 0x2029, 0x202F, 0x205F, 0x3000].contains c

/-- Python `str.strip()`: remove whitespace from both ends. -/
def strip (l : List Nat) : List Nat :=
  ((l.dropWhile isPySpace).reverse.dropWhile isPySpace).reverse

/-- One stored log record.  The source stores `logging.LogRecord` objects;
the fields used by the module are the numeric level, the level name, the
message text and the creation time (abstracted to a tick). -/
structure LogRecord where
  levelno : Nat
  levelname : String
  msg : List Nat
  created : Nat
deriving DecidableEq

/-- The in-memory log store of `LoggingHandler` (a
`logging.handlers.BufferingHandler` with capacity 1000000). -/
structure LoggingHandler where
  buffer : List LogRecord
deriving DecidableEq

/-- `BufferingHandler.shouldFlush`: `len(self.buffer) >= self.capacity`. -/
def LoggingHandler.shouldFlush (h : LoggingHandler) : Bool :=
  capacity ≤ h.buffer.length

/-- `LoggingHandler.emit` (lines 222-232): append the record to the buffer,
then, if `shouldFlush`, call the inherited `BufferingHandler.flush`, which
zaps the buffer to empty.  (The print / master-logger forwarding side
effect does not touch the buffer.) -/
def LoggingHandler.emit (h : LoggingHandler) (r : LogRecord) : LoggingHandler :=
  let appended : LoggingHandler := ⟨h.buffer ++ [r]⟩
  if appended.shouldFlush then ⟨[]⟩ else appended

/-- A sequence of `emit` calls, oldest first. -/
def emitAll (h : LoggingHandler) (rs : List LogRecord) : LoggingHandler :=
  rs.foldl LoggingHandler.emit h

/-- Newline join, Python `'\n'.join(...)` (codepoint 10). -/
def joinNL (ls : List (List Nat)) : List Nat := List.intercalate [10] ls

/-- The `LoggingHandler.stdout` property (lines 234-240): collect the
messages of the records whose `levelname` is `STDOUT`, in buffer order,
joined by newlines. -/
def LoggingHandler.stdout (h : LoggingHandler) : List Nat :=
  joinNL (h.buffer.foldl
    (fun msgs r => if r.levelname = "STDOUT" then msgs ++ [r.msg] else msgs) [])

/-- The `LoggingHandler.stderr` property (lines 242-248). -/
def LoggingHandler.stderr (h : LoggingHandler) : List Nat :=
  joinNL (h.buffer.foldl
    (fun msgs r => if r.levelname = "STDERR" then msgs ++ [r.msg] else msgs) [])

/-- Rendering of the abstract creation tick by the formatter.  The source
renders `%(asctime)s_%(msecs)03d` through `strftime`, an external calendar
facility; the model renders the tick in decimal. -/
def formatTimestamp (created : Nat) : List Nat :=
  (Nat.toDigits 10 created).map Char.toNat

/-- The full formatter `LOGFMT = '%(asctime)s_%(msecs)03d %(levelname)s
%(message)s'` applied to one record: timestamp, level name and message,
space-separated. -/
def formatRecord (r : LogRecord) : List Nat :=
  formatTimestamp r.created ++ [32] ++ strCps r.levelname ++ [32] ++ r.msg

/-- The `LoggingHandler.all_records` property (lines 250-256): every record,
rendered through the full formatter, in buffer order, joined by newlines. -/
def LoggingHandler.all_records (h : LoggingHandler) : List Nat :=
  joinNL (h.buffer.foldl (fun msgs r => msgs ++ [formatRecord r]) [])

/-- An item of the shared queue `Process._queue`: a captured `(raw line,
stream)` pair, or the `None` end-of-stream sentinel. -/
abbrev QItem := Option (List Nat × Stream)

/-- The Python `UnicodeDecodeError` raised by a strict decode; `object`
holds the offending byte line. -/
structure UnicodeDecodeError where
  object : List Nat
deriving DecidableEq

/-- Observable side effects of `Process.__init__`, in program order:
emitting a record into the log handler, spawning the subprocess, starting
a reader thread, consuming an end-of-stream sentinel from the queue, and
waiting for the child to exit. -/
inductive Effect where
  | logged : LogRecord → Effect
  | spawned : List String → Effect
  | threadStarted : Stream → Effect
  | sentinelConsumed : Effect
  | waited : Effect
deriving DecidableEq

/-- State of the consumer loop of `Process.__init__`: the log handler, the
number of sentinels seen so far, the timestamp tick, and the effect trace
accumulated so far. -/
structure ConsumeState where
  handler : LoggingHandler
  sentinels : Nat
  clock : Nat
  events : List Effect
deriving DecidableEq

/-- The record logged for one captured line: `self.log.stdout(line)` logs
at level `STDOUT` (5), `self.log.stderr(line)` at level `STDERR` (35). -/
def mkStreamRecord (s : Stream) (text : List Nat) (created : Nat) : LogRecord :=
  match s with
  | Stream.stdout => ⟨STDOUT, "STDOUT", text, created⟩
  | Stream.stderr => ⟨STDERR, "STDERR", text, created⟩

/-- The body of the consumer loop for one dequeued `(line, stream)` pair
(lines 713-721):

    if line:
        line = line.decode('utf-8').strip()
    if line:
        if stream == 'stderr': self.log.stderr(line)
        if stream == 'stdout': self.log.stdout(line)

An empty byte line is skipped before decoding; a non-empty byte line is
decoded strictly (a `UnicodeDecodeError` propagates) and stripped; a line
that strips to empty is skipped; otherwise a record is emitted with the
severity of the stream. -/
def processItem (st : ConsumeState) (line : List Nat) (s : Stream) :
    Except UnicodeDecodeError ConsumeState :=
  if line.isEmpty then Except.ok st
  else
    match utf8Decode line with
    | none => Except.error ⟨line⟩
    | some cps =>
      let text := strip cps
      if text.isEmpty then Except.ok st
      else
        let r := mkStreamRecord s text st.clock
        Except.ok { st with
          handler := st.handler.emit r,
          clock := st.clock + 1,
          events := st.events ++ [Effect.logged r] }

/-- The recorded text of a raw byte line, if any: mirrors the conditions of
`processItem` (skip empty byte lines, decode, strip, skip empty texts). -/
def lineText (line : List Nat) : Option (List Nat) :=
  if line.isEmpty then none
  else
    match utf8Decode line with
    | none => none
    | some cps =>
      let text := strip cps
      if text.isEmpty then none else some text

/-- The consumer loop of `Process.__init__` (lines 712-721):

    for _ in range(2):
        for line, stream in iter(self._queue.get, None):
            ...

Items are consumed from the (finite, already interleaved) queue until the
second sentinel; the unconsumed remainder is returned alongside the final
state.  A decode error propagates. -/
def consumeLoop : List QItem → ConsumeState →
    Except UnicodeDecodeError (ConsumeState × List QItem)
  | [], st => Except.ok (st, [])
  | none :: rest, st =>
    let st' := { st with
      sentinels := st.sentinels + 1,
      events := st.events ++ [Effect.sentinelConsumed] }
    if st'.sentinels = 2 then Except.ok (st', rest) else consumeLoop rest st'
  | some (line, s) :: rest, st =>
    match processItem st line s with
    | Except.error e => Except.error e
    | Except.ok st' => consumeLoop rest st'

/-- Reference consumer that processes every queue item without stopping at
the second sentinel; `consumeLoop` agrees with it on every queue a pair of
readers can produce, because each reader pushes its sentinel last. -/
def consumeItems : List QItem → ConsumeState → Except UnicodeDecodeError ConsumeState
  | [], st => Except.ok st
  | none :: rest, st =>
    consumeItems rest { st with
      sentinels := st.sentinels + 1,
      events := st.events ++ [Effect.sentinelConsumed] }
  | some (line, s) :: rest, st =>
    match processItem st line s with
    | Except.error e => Except.error e
    | Except.ok st' => consumeItems rest st'

/-- The push sequence of one reader thread, `Process._stdout_stderr_reader`
(lines 753-762):

    try:
        with pipe:
            for line in iter(pipe.readline, b''):
                self._queue.put((line, stream))
    finally:
        self._queue.put(None)

`lines` are the raw lines the pipe delivers; `fault = some k` models an
exception thrown after `k` lines have been read — by the `finally` block
the sentinel is pushed regardless, exactly once, as the last item. -/
def stdoutStderrReader (s : Stream) (lines : List (List Nat))
    (fault : Option Nat) : List QItem :=
  (match fault with
   | none => lines
   | some k => lines.take k).map (fun l => some (l, s)) ++ [none]

/-- The record logged by `self.log.info('Run command: ...')` at the start of
`Process.__init__` (line 697), at tick 0. -/
def runCmdRecord (args : List String) : LogRecord :=
  ⟨INFO, "INFO", strCps (" ".intercalate (["Run command:"] ++ args)), 0⟩

/-- Message of the `self.log.info('Execution time: ...')` record (line 723);
the formatted timer interval is an external real-time value and is
abstracted away. -/
def execTimeMsg : List Nat := strCps ("Execution time:")

/-- A completed `Process` object: the argument vector, the per-process log
handler, the effect trace of the construction, and the exit status of the
child (`subprocess.returncode` after `wait`). -/
structure Process where
  args : List String
  log_handler : LoggingHandler
  effects : List Effect
  returncode : Int
deriving DecidableEq

/-- The consumer state right before the queue-draining loop of
`Process.__init__` starts (after lines 693-710): the `Run command` record
has been logged into the fresh handler, the child has been spawned and the
two reader threads have been started. -/
def initialConsumeState (args : List String) : ConsumeState :=
  { handler := LoggingHandler.emit ⟨[]⟩ (runCmdRecord args),
    sentinels := 0,
    clock := 1,
    events := [Effect.logged (runCmdRecord args), Effect.spawned args,
               Effect.threadStarted Stream.stdout,
               Effect.threadStarted Stream.stderr] }

/-- `Process.__init__` (lines 685-723).  Construction performs the whole
run: log the command, spawn the child, start the two reader threads,
consume the queue until both sentinels have been seen, wait for the child,
log the execution time.  The queue content `q` is an input: it stands for
the interleaving of the two readers' push sequences that the scheduler
produced; `returncode` is the child's exit status delivered by `wait`. -/
def Process.init (args : List String) (q : List QItem) (returncode : Int) :
    Except UnicodeDecodeError Process :=
  match consumeLoop q (initialConsumeState args) with
  | Except.error e => Except.error e
  | Except.ok (st, _) =>
    let execRec : LogRecord := ⟨INFO, "INFO", execTimeMsg, st.clock⟩
    Except.ok
      { args := args,
        log_handler := st.handler.emit execRec,
        effects := st.events ++ [Effect.waited, Effect.logged execRec],
        returncode := returncode }

/-- The exception raised by `Watch.run` on a non-ignored non-zero exit
status (`CommandWatcherError`). -/
structure CommandWatcherError where
  msg : List Nat
deriving DecidableEq

/-- The state of a `Watch` object relevant to `run`: the list of completed
processes and the `raise_exceptions` policy flag. -/
structure Watch where
  processes : List Process
  raise_exceptions : Bool
deriving DecidableEq

/-- `Watch.run` (lines 893-923): construct the `Process` (which performs
the entire run), append it to `self.processes`, then raise
`CommandWatcherError` when `self._raise_exceptions` is set, the return
code is non-zero and not in `ignore_exceptions`; otherwise return the
process.  The outer `Except` propagates a decode error of the run; the
inner one is the raised `CommandWatcherError`. -/
def Watch.run (w : Watch) (args : List String) (q : List QItem)
    (returncode : Int) (ignore_exceptions : List Int) :
    Except UnicodeDecodeError (Watch × Except CommandWatcherError Process) :=
  match Process.init args q returncode with
  | Except.error e => Except.error e
  | Except.ok process =>
    let w' := { w with processes := w.processes ++ [process] }
    let rc := process.returncode
    if w.raise_exceptions ∧ rc ≠ 0 ∧ rc ∉ ignore_exceptions then
      Except.ok (w', Except.error
        ⟨strCps (" ".intercalate (["The command"] ++ process.args
          ++ ["exists with an non-zero return code."]))⟩)
    else
      Except.ok (w', Except.ok process)

/-- An interleaving of two lists: the order within each list is preserved,
the cross order is arbitrary.  The queue content produced by the two racing
reader threads is an interleaving of their two push sequences. -/
inductive Interleaving {α : Type} : List α → List α → List α → Prop where
  | nil : Interleaving [] [] []
  | left {x : α} {xs ys zs : List α} :
      Interleaving xs ys zs → Interleaving (x :: xs) ys (x :: zs)
  | right {y : α} {xs ys zs : List α} :
      Interleaving xs ys zs → Interleaving xs (y :: ys) (y :: zs)

/-- The messages of the captured-stdout records of a buffer, in order: the
records written by `log.stdout` (level 5, level name `STDOUT`). -/
def stdoutMsgs (b : List LogRecord) : List (List Nat) :=
  b.filterMap (fun r =>
    if r.levelno = STDOUT ∧ r.levelname = "STDOUT" then some r.msg else none)

/-- The messages of the captured-stderr records of a buffer, in order. -/
def stderrMsgs (b : List LogRecord) : List (List Nat) :=
  b.filterMap (fun r =>
    if r.levelno = STDERR ∧ r.levelname = "STDERR" then some r.msg else none)

/-- The texts that the consumer records for a sequence of queue items. -/
def itemsTexts (q : List QItem) : List (List Nat) :=
  q.filterMap (fun x =>
    match x with
    | none => none
    | some (l, _) => lineText l)

/-- The recorded texts of a list of raw lines: one entry per line that is
non-empty after decoding and stripping. -/
def procLines (lines : List (List Nat)) : List (List Nat) :=
  lines.filterMap lineText

/-- The stream of a queue item, if it is not a sentinel. -/
def itemStream (x : QItem) : Option Stream :=
  match x with
  | none => none
  | some (_, s) => some s

/-! ### Helper lemmas about list folds -/

theorem foldl_filter_acc {α β : Type} (P : α → Prop) [DecidablePred P] (f : α → β) :
    ∀ (l : List α) (acc : List β),
      l.foldl (fun a r => if P r then a ++ [f r] else a) acc
        = acc ++ (l.filter (fun r => decide (P r))).map f := by
  intro l
  induction l with
  | nil => intro acc; simp
  | cons x xs ih =>
    intro acc
    by_cases h : P x <;> simp [List.foldl_cons, List.filter_cons, h, ih]

theorem foldl_map_acc {α β : Type} (f : α → β) :
    ∀ (l : List α) (acc : List β),
      l.foldl (fun a r => a ++ [f r]) acc = acc ++ l.map f := by
  intro l
  induction l with
  | nil => intro acc; simp
  | cons x xs ih => intro acc; simp [List.foldl_cons, ih]

/-! ### Helper lemmas about the log handler -/

theorem emit_below_capacity (h : LoggingHandler) (r : LogRecord)
    (hlt : h.buffer.length + 1 < capacity) :
    h.emit r = ⟨h.buffer ++ [r]⟩ := by
  simp only [LoggingHandler.emit, LoggingHandler.shouldFlush]
  rw [if_neg]
  simp only [List.length_append, List.length_cons, List.length_nil,
    decide_eq_true_eq]
  omega

theorem emit_at_capacity (h : LoggingHandler) (r : LogRecord)
    (hge : capacity ≤ h.buffer.length + 1) :
    h.emit r = ⟨[]⟩ := by
  simp only [LoggingHandler.emit, LoggingHandler.shouldFlush]
  rw [if_pos]
  simp only [List.length_append, List.length_cons, List.length_nil,
    decide_eq_true_eq]
  omega

theorem emitAll_below_capacity :
    ∀ (rs : List LogRecord) (h : LoggingHandler),
      h.buffer.length + rs.length < capacity →
      (emitAll h rs).buffer = h.buffer ++ rs := by
  intro rs
  induction rs with
  | nil => intro h _; simp [emitAll]
  | cons r rest ih =>
    intro h hlt
    simp only [List.length_cons] at hlt
    simp only [emitAll, List.foldl_cons]
    rw [emit_below_capacity h r (by omega)]
    have := ih ⟨h.buffer ++ [r]⟩ (by simp; omega)
    simp only [emitAll] at this
    rw [this]
    simp

theorem emitAll_reaching_capacity :
    ∀ (rs : List LogRecord) (h : LoggingHandler),
      rs ≠ [] → h.buffer.length + rs.length = capacity →
      (emitAll h rs).buffer = [] := by
  intro rs
  induction rs with
  | nil => intro h hne; exact absurd rfl hne
  | cons r rest ih =>
    intro h _ hlen
    simp only [List.length_cons] at hlen
    cases rest with
    | nil =>
      simp only [emitAll, List.foldl_cons, List.foldl_nil]
      rw [emit_at_capacity h r (by simp at hlen; omega)]
    | cons r2 rest2 =>
      simp only [emitAll, List.foldl_cons]
      rw [emit_below_capacity h r (by simp at hlen; omega)]
      have := ih ⟨h.buffer ++ [r]⟩ (by simp) (by simp at hlen ⊢; omega)
      simp only [emitAll, List.foldl_cons] at this
      exact this

/-! ### Helper lemmas about the consumer -/

/-- Number of sentinel items in a queue segment. -/
def sentinelCount (q : List QItem) : Nat := q.countP (fun x => Option.isNone x)

@[simp] theorem sentinelCount_nil : sentinelCount [] = 0 := rfl

@[simp] theorem sentinelCount_cons_none (q : List QItem) :
    sentinelCount (none :: q) = sentinelCount q + 1 := by
  simp [sentinelCount, List.countP_cons]

@[simp] theorem sentinelCount_cons_some (x : List Nat × Stream) (q : List QItem) :
    sentinelCount (some x :: q) = sentinelCount q := by
  simp [sentinelCount, List.countP_cons]

@[simp] theorem sentinelCount_append (q1 q2 : List QItem) :
    sentinelCount (q1 ++ q2) = sentinelCount q1 + sentinelCount q2 := by
  simp [sentinelCount, List.countP_append]

/-- Number of sentinel-consumption events in an effect-trace segment. -/
def sentinelEvents (es : List Effect) : Nat :=
  es.countP (fun e => e == Effect.sentinelConsumed)

@[simp] theorem sentinelEvents_nil : sentinelEvents [] = 0 := rfl

@[simp] theorem sentinelEvents_cons (e : Effect) (es : List Effect) :
    sentinelEvents (e :: es)
      = sentinelEvents es + (if e = Effect.sentinelConsumed then 1 else 0) := by
  simp [sentinelEvents, List.countP_cons]

@[simp] theorem sentinelEvents_append (es1 es2 : List Effect) :
    sentinelEvents (es1 ++ es2) = sentinelEvents es1 + sentinelEvents es2 := by
  simp [sentinelEvents, List.countP_append]

theorem processItem_ok {st : ConsumeState} {line : List Nat} {s : Stream}
    {st' : ConsumeState} (h : processItem st line s = Except.ok st') :
    (lineText line = none ∧ st' = st) ∨
    (∃ t, lineText line = some t ∧
      st' = { st with
        handler := st.handler.emit (mkStreamRecord s t st.clock),
        clock := st.clock + 1,
        events := st.events ++ [Effect.logged (mkStreamRecord s t st.clock)] }) := by
  by_cases he : line.isEmpty = true
  · left
    refine ⟨by simp [lineText, he], ?_⟩
    simp [processItem, he] at h
    exact h.symm
  · cases hd : utf8Decode line with
    | none => simp [processItem, he, hd] at h
    | some cps =>
      by_cases hs : (strip cps).isEmpty = true
      · left
        refine ⟨by simp [lineText, he, hd, hs], ?_⟩
        simp [processItem, he, hd, hs] at h
        exact h.symm
      · right
        refine ⟨strip cps, by simp [lineText, he, hd, hs], ?_⟩
        simp [processItem, he, hd, hs] at h
        exact h.symm

theorem processItem_error {st : ConsumeState} {line : List Nat} {s : Stream}
    {e : UnicodeDecodeError} (h : processItem st line s = Except.error e) :
    line.isEmpty = false ∧ utf8Decode line = none ∧ e = ⟨line⟩ := by
  by_cases he : line.isEmpty = true
  · simp [processItem, he] at h
  · cases hd : utf8Decode line with
    | none =>
      simp [processItem, he, hd] at h
      exact ⟨by simp_all, rfl, h.symm⟩
    | some cps =>
      by_cases hs : (strip cps).isEmpty = true <;>
        simp [processItem, he, hd, hs] at h

theorem processItem_sentinels {st : ConsumeState} {line : List Nat} {s : Stream}
    {st' : ConsumeState} (h : processItem st line s = Except.ok st') :
    st'.sentinels = st.sentinels := by
  rcases processItem_ok h with ⟨_, rfl⟩ | ⟨t, _, rfl⟩ <;> rfl

/-- Every successful `consumeLoop` run only appends sentinel-consumption and
record-emission events to the trace, never a `waited` event, and the number
of appended sentinel events is the number of sentinels counted. -/
theorem consumeLoop_trace :
    ∀ (q : List QItem) (st st' : ConsumeState) (rest : List QItem),
      consumeLoop q st = Except.ok (st', rest) →
      ∃ δ, st'.events = st.events ++ δ ∧ Effect.waited ∉ δ ∧
        st'.sentinels = st.sentinels + sentinelEvents δ := by
  intro q
  induction q with
  | nil =>
    intro st st' rest h
    simp only [consumeLoop] at h
    rw [Except.ok.injEq, Prod.mk.injEq] at h
    obtain ⟨h1, h2⟩ := h
    subst h1
    exact ⟨[], by simp⟩
  | cons x xs ih =>
    intro st st' rest h
    cases x with
    | none =>
      simp only [consumeLoop] at h
      split at h
      · rw [Except.ok.injEq, Prod.mk.injEq] at h
        obtain ⟨h1, h2⟩ := h
        subst h1
        exact ⟨[Effect.sentinelConsumed], rfl, by simp, by simp⟩
      · obtain ⟨δ, h1, h2, h3⟩ := ih _ _ _ h
        refine ⟨Effect.sentinelConsumed :: δ, ?_, by simp [h2], ?_⟩
        · rw [h1]; simp
        · rw [h3]; simp; omega
    | some ls =>
      obtain ⟨l, s⟩ := ls
      simp only [consumeLoop] at h
      cases hpi : processItem st l s with
      | error e => rw [hpi] at h; exact absurd h (by simp)
      | ok st1 =>
        rw [hpi] at h
        obtain ⟨δ, h1, h2, h3⟩ := ih _ _ _ h
        rcases processItem_ok hpi with ⟨_, rfl⟩ | ⟨t, _, rfl⟩
        · exact ⟨δ, h1, h2, h3⟩
        · refine ⟨Effect.logged (mkStreamRecord s t st.clock) :: δ, ?_, by simp [h2], ?_⟩
          · rw [h1]; simp
          · rw [h3]; simp

/-- A successful full consumption counts exactly the sentinels present in
the queue. -/
theorem consumeItems_sentinels :
    ∀ (q : List QItem) (st st' : ConsumeState),
      consumeItems q st = Except.ok st' →
      st'.sentinels = st.sentinels + sentinelCount q := by
  intro q
  induction q with
  | nil =>
    intro st st' h
    simp only [consumeItems] at h
    obtain rfl : st' = st := by simp_all
    simp
  | cons x xs ih =>
    intro st st' h
    cases x with
    | none =>
      simp only [consumeItems] at h
      have hr := ih _ _ h
      rw [hr]
      simp
      omega
    | some ls =>
      obtain ⟨l, s⟩ := ls
      simp only [consumeItems] at h
      cases hpi : processItem st l s with
      | error e => rw [hpi] at h; exact absurd h (by simp)
      | ok st1 =>
        rw [hpi] at h
        have hr := ih _ _ h
        rw [hr, processItem_sentinels hpi]
        simp

/-- On a queue that ends with a sentinel and holds exactly the two pending
sentinels, the stop-after-two-sentinels loop of `Process.__init__` consumes
the whole queue and agrees with the full consumption. -/
theorem consumeLoop_eq_consumeItems :
    ∀ (q0 : List QItem) (st : ConsumeState),
      st.sentinels + sentinelCount (q0 ++ [none]) = 2 →
      consumeLoop (q0 ++ [none]) st
        = (consumeItems (q0 ++ [none]) st).map (fun s => (s, [])) := by
  intro q0
  induction q0 with
  | nil =>
    intro st hcount
    have hsent : st.sentinels = 1 := by
      simp at hcount
      omega
    simp only [List.nil_append, consumeLoop, consumeItems]
    split
    · simp [consumeItems, Except.map]
    · rename_i hcond
      exact absurd (show st.sentinels + 1 = 2 by omega) hcond
  | cons x xs ih =>
    intro st hcount
    cases x with
    | none =>
      have htail : 1 ≤ sentinelCount (xs ++ [none]) := by simp
      have hcount' : st.sentinels + 1 + sentinelCount (xs ++ [none]) = 2 := by
        simp at hcount ⊢
        omega
      simp only [List.cons_append, consumeLoop, consumeItems]
      split
      · rename_i hcond
        exfalso
        have h2 : st.sentinels + 1 = 2 := hcond
        simp at htail hcount'
        omega
      · exact ih _ (show st.sentinels + 1 + _ = 2 from hcount')
    | some ls =>
      obtain ⟨l, s⟩ := ls
      have hcount' : st.sentinels + sentinelCount (xs ++ [none]) = 2 := by
        simp at hcount ⊢
        omega
      simp only [List.cons_append, consumeLoop, consumeItems]
      cases hpi : processItem st l s with
      | error e => simp [hpi, Except.map]
      | ok st1 =>
        simp only [hpi]
        refine ih st1 ?_
        rw [processItem_sentinels hpi]
        exact hcount'

/-! ### Helper lemmas about interleavings -/

theorem interleaving_nil_left {α : Type} {xs ys zs : List α}
    (h : Interleaving xs ys zs) (hx : xs = []) : zs = ys := by
  induction h with
  | nil => rfl
  | left h ih => simp at hx
  | right h ih => rw [ih hx]

theorem interleaving_nil_right {α : Type} {xs ys zs : List α}
    (h : Interleaving xs ys zs) (hy : ys = []) : zs = xs := by
  induction h with
  | nil => rfl
  | left h ih => rw [ih hy]
  | right h ih => simp at hy

/-- If both interleaved lists end with the element `a`, so does the
interleaving: the later of the two final `a`s is the global last item. -/
theorem interleaving_ends_with {α : Type} {a : α} {xs ys zs : List α}
    (h : Interleaving xs ys zs) :
    (∃ xs0, xs = xs0 ++ [a]) → (∃ ys0, ys = ys0 ++ [a]) →
    ∃ zs0, zs = zs0 ++ [a] := by
  induction h with
  | nil =>
    rintro ⟨x0, hx⟩ _
    exact absurd hx (by simp)
  | left h ih =>
    rename_i x xs' ys' zs'
    rintro ⟨x0, hx⟩ hy
    cases x0 with
    | nil =>
      simp at hx
      obtain ⟨rfl, rfl⟩ := hx
      have hz := interleaving_nil_left h rfl
      obtain ⟨y0, rfl⟩ := hy
      exact ⟨x :: y0, by rw [hz]; simp⟩
    | cons c x1 =>
      simp at hx
      obtain ⟨rfl, rfl⟩ := hx
      obtain ⟨z0, hz⟩ := ih ⟨x1, rfl⟩ hy
      exact ⟨x :: z0, by rw [hz]; rfl⟩
  | right h ih =>
    rename_i y xs' ys' zs'
    rintro hx ⟨y0, hy⟩
    cases y0 with
    | nil =>
      simp at hy
      obtain ⟨rfl, rfl⟩ := hy
      have hz := interleaving_nil_right h rfl
      obtain ⟨x0, rfl⟩ := hx
      exact ⟨y :: x0, by rw [hz]; simp⟩
    | cons c y1 =>
      simp at hy
      obtain ⟨rfl, rfl⟩ := hy
      obtain ⟨z0, hz⟩ := ih hx ⟨y1, rfl⟩
      exact ⟨y :: z0, by rw [hz]; rfl⟩

theorem interleaving_sentinelCount {xs ys zs : List QItem}
    (h : Interleaving xs ys zs) :
    sentinelCount zs = sentinelCount xs + sentinelCount ys := by
  induction h with
  | nil => simp
  | left h ih =>
    rename_i x xs' ys' zs'
    cases x with
    | none => simp [ih]; omega
    | some v => simp [ih]
  | right h ih =>
    rename_i y xs' ys' zs'
    cases y with
    | none => simp [ih]; omega
    | some v => simp [ih]

theorem interleaving_length {α : Type} {xs ys zs : List α}
    (h : Interleaving xs ys zs) : zs.length = xs.length + ys.length := by
  induction h with
  | nil => simp
  | left h ih => simp [ih]; omega
  | right h ih => simp [ih]; omega

/-! ### Helper lemmas about the projections -/

theorem stdoutMsgs_append (b1 b2 : List LogRecord) :
    stdoutMsgs (b1 ++ b2) = stdoutMsgs b1 ++ stdoutMsgs b2 := by
  simp [stdoutMsgs, List.filterMap_append]

theorem stderrMsgs_append (b1 b2 : List LogRecord) :
    stderrMsgs (b1 ++ b2) = stderrMsgs b1 ++ stderrMsgs b2 := by
  simp [stderrMsgs, List.filterMap_append]

@[simp] theorem stdoutMsgs_nil : stdoutMsgs [] = [] := rfl

@[simp] theorem stderrMsgs_nil : stderrMsgs [] = [] := rfl

@[simp] theorem stdoutMsgs_stdout_rec (t : List Nat) (c : Nat) :
    stdoutMsgs [mkStreamRecord Stream.stdout t c] = [t] := by
  simp [stdoutMsgs, mkStreamRecord, List.filterMap_cons]

@[simp] theorem stdoutMsgs_stderr_rec (t : List Nat) (c : Nat) :
    stdoutMsgs [mkStreamRecord Stream.stderr t c] = [] := by
  simp [stdoutMsgs, mkStreamRecord, List.filterMap_cons, STDOUT, STDERR]

@[simp] theorem stderrMsgs_stderr_rec (t : List Nat) (c : Nat) :
    stderrMsgs [mkStreamRecord Stream.stderr t c] = [t] := by
  simp [stderrMsgs, mkStreamRecord, List.filterMap_cons]

@[simp] theorem stderrMsgs_stdout_rec (t : List Nat) (c : Nat) :
    stderrMsgs [mkStreamRecord Stream.stdout t c] = [] := by
  simp [stderrMsgs, mkStreamRecord, List.filterMap_cons, STDOUT, STDERR]

@[simp] theorem stdoutMsgs_info_rec (nm : String) (m : List Nat) (c : Nat) :
    stdoutMsgs [⟨INFO, nm, m, c⟩] = [] := by
  simp [stdoutMsgs, List.filterMap_cons, STDOUT, INFO]

@[simp] theorem stderrMsgs_info_rec (nm : String) (m : List Nat) (c : Nat) :
    stderrMsgs [⟨INFO, nm, m, c⟩] = [] := by
  simp [stderrMsgs, List.filterMap_cons, STDERR, INFO]

@[simp] theorem itemsTexts_nil : itemsTexts [] = [] := rfl

@[simp] theorem itemsTexts_cons_none (q : List QItem) :
    itemsTexts (none :: q) = itemsTexts q := by
  simp [itemsTexts, List.filterMap_cons]

theorem itemsTexts_cons_skip {l : List Nat} (s : Stream) (q : List QItem)
    (h : lineText l = none) :
    itemsTexts (some (l, s) :: q) = itemsTexts q := by
  simp [itemsTexts, List.filterMap_cons, h]

theorem itemsTexts_cons_text {l t : List Nat} (s : Stream) (q : List QItem)
    (h : lineText l = some t) :
    itemsTexts (some (l, s) :: q) = t :: itemsTexts q := by
  simp [itemsTexts, List.filterMap_cons, h]

/-- Full consumption of an interleaving of a stdout-only and a stderr-only
item sequence, below capacity: the captured-stdout messages of the final
buffer extend those of the initial buffer by exactly the recorded texts of
the stdout sequence, in order, and similarly for stderr; the buffer grows
by at most one record per queue item. -/
theorem consumeItems_split {qa qb q : List QItem} (h : Interleaving qa qb q) :
    ∀ (st st' : ConsumeState),
      (∀ x ∈ qa, itemStream x ≠ some Stream.stderr) →
      (∀ x ∈ qb, itemStream x ≠ some Stream.stdout) →
      st.handler.buffer.length + q.length < capacity →
      consumeItems q st = Except.ok st' →
      stdoutMsgs st'.handler.buffer = stdoutMsgs st.handler.buffer ++ itemsTexts qa ∧
      stderrMsgs st'.handler.buffer = stderrMsgs st.handler.buffer ++ itemsTexts qb ∧
      st'.handler.buffer.length ≤ st.handler.buffer.length + q.length := by
  induction h with
  | nil =>
    intro st st' _ _ _ hok
    simp only [consumeItems] at hok
    obtain rfl : st' = st := by simp_all
    simp
  | left hsub ih =>
    rename_i x xs ys zs
    intro st st' ha hb hcap hok
    have ha' : ∀ y ∈ xs, itemStream y ≠ some Stream.stderr :=
      fun y hy => ha y (List.mem_cons_of_mem _ hy)
    simp only [List.length_cons] at hcap
    cases x with
    | none =>
      simp only [consumeItems] at hok
      have hres := ih
        { st with sentinels := st.sentinels + 1,
                  events := st.events ++ [Effect.sentinelConsumed] }
        st' ha' hb
        (show st.handler.buffer.length + zs.length < capacity by omega) hok
      obtain ⟨h1, h2, h3⟩ := hres
      have h3' : st'.handler.buffer.length
          ≤ st.handler.buffer.length + zs.length := h3
      refine ⟨by simpa using h1, h2, ?_⟩
      simp only [List.length_cons]
      omega
    | some ls =>
      obtain ⟨l, s⟩ := ls
      have hs : s = Stream.stdout := by
        cases s
        · rfl
        · exact absurd rfl (ha (some (l, Stream.stderr)) (List.mem_cons_self _ _))
      subst hs
      simp only [consumeItems] at hok
      cases hpi : processItem st l Stream.stdout with
      | error e => rw [hpi] at hok; exact absurd hok (by simp)
      | ok st1 =>
        rw [hpi] at hok
        rcases processItem_ok hpi with ⟨hlt, rfl⟩ | ⟨t, hlt, rfl⟩
        · have hres := ih _ st' ha' hb (by omega) hok
          obtain ⟨h1, h2, h3⟩ := hres
          rw [itemsTexts_cons_skip _ _ hlt]
          refine ⟨h1, h2, ?_⟩
          simp only [List.length_cons]
          omega
        · have hemit : st.handler.emit (mkStreamRecord Stream.stdout t st.clock)
              = ⟨st.handler.buffer ++ [mkStreamRecord Stream.stdout t st.clock]⟩ :=
            emit_below_capacity _ _ (by omega)
          rw [hemit] at hok
          have hres := ih _ st' ha' hb (by simp; omega) hok
          obtain ⟨h1, h2, h3⟩ := hres
          rw [itemsTexts_cons_text _ _ hlt]
          refine ⟨?_, ?_, ?_⟩
          · rw [h1]
            simp [stdoutMsgs_append]
          · rw [h2]
            simp [stderrMsgs_append]
          · simp only [List.length_cons]
            simp at h3
            omega
  | right hsub ih =>
    rename_i y xs ys zs
    intro st st' ha hb hcap hok
    have hb' : ∀ x ∈ ys, itemStream x ≠ some Stream.stdout :=
      fun x hx => hb x (List.mem_cons_of_mem _ hx)
    simp only [List.length_cons] at hcap
    cases y with
    | none =>
      simp only [consumeItems] at hok
      have hres := ih
        { st with sentinels := st.sentinels + 1,
                  events := st.events ++ [Effect.sentinelConsumed] }
        st' ha hb'
        (show st.handler.buffer.length + zs.length < capacity by omega) hok
      obtain ⟨h1, h2, h3⟩ := hres
      have h3' : st'.handler.buffer.length
          ≤ st.handler.buffer.length + zs.length := h3
      refine ⟨h1, by simpa using h2, ?_⟩
      simp only [List.length_cons]
      omega
    | some ls =>
      obtain ⟨l, s⟩ := ls
      have hs : s = Stream.stderr := by
        cases s
        · exact absurd rfl (hb (some (l, Stream.stdout)) (List.mem_cons_self _ _))
        · rfl
      subst hs
      simp only [consumeItems] at hok
      cases hpi : processItem st l Stream.stderr with
      | error e => rw [hpi] at hok; exact absurd hok (by simp)
      | ok st1 =>
        rw [hpi] at hok
        rcases processItem_ok hpi with ⟨hlt, rfl⟩ | ⟨t, hlt, rfl⟩
        · have hres := ih _ st' ha hb' (by omega) hok
          obtain ⟨h1, h2, h3⟩ := hres
          rw [itemsTexts_cons_skip _ _ hlt]
          refine ⟨h1, h2, ?_⟩
          simp only [List.length_cons]
          omega
        · have hemit : st.handler.emit (mkStreamRecord Stream.stderr t st.clock)
              = ⟨st.handler.buffer ++ [mkStreamRecord Stream.stderr t st.clock]⟩ :=
            emit_below_capacity _ _ (by omega)
          rw [hemit] at hok
          have hres := ih _ st' ha hb' (by simp; omega) hok
          obtain ⟨h1, h2, h3⟩ := hres
          rw [itemsTexts_cons_text _ _ hlt]
          refine ⟨?_, ?_, ?_⟩
          · rw [h1]
            simp [stdoutMsgs_append]
          · rw [h2]
            simp [stderrMsgs_append]
          · simp only [List.length_cons]
            simp at h3
            omega

/-! ### Helper lemmas about the readers and about `Process.init` -/

@[simp] theorem sentinelCount_map_some (s : Stream) (ls : List (List Nat)) :
    sentinelCount (ls.map (fun l => some (l, s))) = 0 := by
  induction ls with
  | nil => simp
  | cons a t ih => simp [ih]

theorem reader_sentinelCount (s : Stream) (lines : List (List Nat))
    (fault : Option Nat) :
    sentinelCount (stdoutStderrReader s lines fault) = 1 := by
  cases fault with
  | none =>
    simp only [stdoutStderrReader, sentinelCount_append, sentinelCount_map_some]
    simp
  | some k =>
    simp only [stdoutStderrReader, sentinelCount_append, sentinelCount_map_some]
    simp

theorem reader_ends_with (s : Stream) (lines : List (List Nat))
    (fault : Option Nat) :
    ∃ q0, stdoutStderrReader s lines fault = q0 ++ [none] :=
  ⟨_, rfl⟩

/-- Every item a reader pushes is either the sentinel or a line tagged with
that reader's own stream. -/
theorem reader_item_shape {s : Stream} {lines : List (List Nat)}
    {fault : Option Nat} {x : QItem}
    (hx : x ∈ stdoutStderrReader s lines fault) :
    x = none ∨ ∃ l, x = some (l, s) := by
  have hshape : ∃ L : List (List Nat), stdoutStderrReader s lines fault
      = L.map (fun l => some (l, s)) ++ [none] := by
    cases fault with
    | none => exact ⟨lines, rfl⟩
    | some k => exact ⟨lines.take k, rfl⟩
  obtain ⟨L, hL⟩ := hshape
  rw [hL] at hx
  rcases List.mem_append.mp hx with hmem | hmem
  · obtain ⟨l, _, rfl⟩ := List.mem_map.mp hmem
    exact Or.inr ⟨l, rfl⟩
  · simp at hmem
    exact Or.inl hmem

theorem reader_pure (s s' : Stream) (lines : List (List Nat))
    (fault : Option Nat) (hne : s' ≠ s) :
    ∀ x ∈ stdoutStderrReader s lines fault, itemStream x ≠ some s' := by
  intro x hx
  rcases reader_item_shape hx with rfl | ⟨l, rfl⟩
  · simp [itemStream]
  · simp [itemStream]
    exact fun h => hne h.symm

theorem itemsTexts_reader (s : Stream) (lines : List (List Nat)) :
    itemsTexts (stdoutStderrReader s lines none) = procLines lines := by
  simp only [stdoutStderrReader, itemsTexts, procLines, List.filterMap_append,
    List.filterMap_map]
  have hcomp : ((fun x : QItem =>
      match x with
      | none => none
      | some (l, _) => lineText l) ∘ (fun l => some (l, s))) = lineText :=
    funext fun l => rfl
  rw [hcomp]
  simp

theorem init_state_handler (args : List String) :
    (initialConsumeState args).handler = ⟨[runCmdRecord args]⟩ := by
  have h := emit_below_capacity ⟨[]⟩ (runCmdRecord args) (by norm_num [capacity])
  simp only [initialConsumeState]
  rw [h]
  simp

/-- Elimination form of a successful `Process.init`: it exposes the final
consumer state. -/
theorem init_ok_elim {args : List String} {q : List QItem} {rc : Int}
    {p : Process} (h : Process.init args q rc = Except.ok p) :
    ∃ st rest, consumeLoop q (initialConsumeState args) = Except.ok (st, rest) ∧
      p = { args := args,
            log_handler := st.handler.emit ⟨INFO, "INFO", execTimeMsg, st.clock⟩,
            effects := st.events
              ++ [Effect.waited, Effect.logged ⟨INFO, "INFO", execTimeMsg, st.clock⟩],
            returncode := rc } := by
  simp only [Process.init] at h
  cases hcl : consumeLoop q (initialConsumeState args) with
  | error e => rw [hcl] at h; exact absurd h (by simp)
  | ok pr =>
    obtain ⟨st, rest⟩ := pr
    rw [hcl] at h
    refine ⟨st, rest, rfl, ?_⟩
    rw [Except.ok.injEq] at h
    exact h.symm

/-- Main correctness of a below-capacity, fault-free run of
`Process.__init__`: the captured-stdout records of the final buffer are
exactly the recorded texts of the stdout reader's lines, in order, and
likewise for stderr; the effect trace ends with the wait for the child and
the execution-time record, after both sentinels have been consumed. -/
theorem init_ok_main {la lb : List (List Nat)} {args : List String} {rc : Int}
    {q : List QItem} {p : Process}
    (hq : Interleaving (stdoutStderrReader Stream.stdout la none)
      (stdoutStderrReader Stream.stderr lb none) q)
    (hcap : q.length + 2 < capacity)
    (hrun : Process.init args q rc = Except.ok p) :
    stdoutMsgs p.log_handler.buffer = procLines la ∧
    stderrMsgs p.log_handler.buffer = procLines lb ∧
    p.args = args ∧ p.returncode = rc ∧
    (∃ pre c,
      p.effects = pre ++ [Effect.waited, Effect.logged ⟨INFO, "INFO", execTimeMsg, c⟩] ∧
      sentinelEvents pre = 2 ∧ Effect.waited ∉ pre) := by
  obtain ⟨st, rest, hcl, hp⟩ := init_ok_elim hrun
  obtain ⟨q0, hq0⟩ := interleaving_ends_with hq
    (reader_ends_with Stream.stdout la none) (reader_ends_with Stream.stderr lb none)
  have hcount : sentinelCount q = 2 := by
    rw [interleaving_sentinelCount hq, reader_sentinelCount, reader_sentinelCount]
  -- bridge the stop-at-two-sentinels loop to full consumption
  have hloopeq : consumeLoop q (initialConsumeState args)
      = (consumeItems q (initialConsumeState args)).map (fun s => (s, [])) := by
    rw [hq0]
    refine consumeLoop_eq_consumeItems q0 (initialConsumeState args) ?_
    rw [← hq0, hcount]
    rfl
  have hci : consumeItems q (initialConsumeState args) = Except.ok st := by
    have hcl2 := hcl
    rw [hloopeq] at hcl2
    cases hci0 : consumeItems q (initialConsumeState args) with
    | error e => rw [hci0] at hcl2; simp [Except.map] at hcl2
    | ok stf =>
      rw [hci0] at hcl2
      simp only [Except.map, Except.ok.injEq, Prod.mk.injEq] at hcl2
      rw [hcl2.1]
  -- apply the stream splitting below capacity
  have hsplit := consumeItems_split hq (initialConsumeState args) st
    (reader_pure Stream.stdout Stream.stderr la none (by simp))
    (reader_pure Stream.stderr Stream.stdout lb none (by simp))
    (by rw [init_state_handler]; simp; omega) hci
  obtain ⟨hsplit1, hsplit2, hsplit3⟩ := hsplit
  rw [init_state_handler] at hsplit1 hsplit2 hsplit3
  simp only [itemsTexts_reader] at hsplit1 hsplit2
  have hr0out : stdoutMsgs [runCmdRecord args] = [] := by simp [runCmdRecord]
  have hr0err : stderrMsgs [runCmdRecord args] = [] := by simp [runCmdRecord]
  -- the final emit of the execution-time record stays below capacity
  have hfinal : st.handler.emit ⟨INFO, "INFO", execTimeMsg, st.clock⟩
      = ⟨st.handler.buffer ++ [(⟨INFO, "INFO", execTimeMsg, st.clock⟩ : LogRecord)]⟩ := by
    refine emit_below_capacity _ _ ?_
    simp at hsplit3
    omega
  have hbuf : p.log_handler.buffer
      = st.handler.buffer ++ [(⟨INFO, "INFO", execTimeMsg, st.clock⟩ : LogRecord)] := by
    rw [hp]
    simp [hfinal]
  -- sentinel bookkeeping for the trace
  have hsent2 : st.sentinels = 2 := by
    have hs := consumeItems_sentinels q (initialConsumeState args) st hci
    rw [hs, hcount]
    rfl
  obtain ⟨δ, hev, hwi, hside⟩ := consumeLoop_trace q (initialConsumeState args)
    st rest hcl
  refine ⟨?_, ?_, by rw [hp], by rw [hp], st.events, st.clock, by rw [hp], ?_, ?_⟩
  · rw [hbuf, stdoutMsgs_append, hsplit1, hr0out]
    simp
  · rw [hbuf, stderrMsgs_append, hsplit2, hr0err]
    simp
  · rw [hev]
    have hinit : sentinelEvents (initialConsumeState args).events = 0 := by
      simp [initialConsumeState]
    rw [sentinelEvents_append, hinit]
    have hx : st.sentinels = (initialConsumeState args).sentinels + sentinelEvents δ :=
      hside
    rw [hsent2] at hx
    simp only [initialConsumeState] at hx
    omega
  · rw [hev]
    intro hmem
    rcases List.mem_append.mp hmem with hmem1 | hmem2
    · simp [initialConsumeState] at hmem1
    · exact hwi hmem2

/-! ### Overflow behaviour at the buffer capacity -/

theorem consumeItems_append (q1 q2 : List QItem) :
    ∀ st, consumeItems (q1 ++ q2) st
      = match consumeItems q1 st with
        | Except.error e => Except.error e
        | Except.ok st1 => consumeItems q2 st1 := by
  induction q1 with
  | nil => intro st; simp [consumeItems]
  | cons x xs ih =>
    intro st
    cases x with
    | none =>
      simp only [List.cons_append, consumeItems]
      exact ih _
    | some ls =>
      obtain ⟨l, s⟩ := ls
      simp only [List.cons_append, consumeItems]
      cases hpi : processItem st l s with
      | error e => simp
      | ok st1 =>
        simp only
        exact ih st1

theorem processItem_lineA (st : ConsumeState) :
    processItem st [97] Stream.stdout
      = Except.ok { st with
          handler := st.handler.emit (mkStreamRecord Stream.stdout [97] st.clock),
          clock := st.clock + 1,
          events := st.events
            ++ [Effect.logged (mkStreamRecord Stream.stdout [97] st.clock)] } := by
  rfl

theorem consumeItems_lineA_cons (st : ConsumeState) (q : List QItem) :
    consumeItems (some ([97], Stream.stdout) :: q) st
      = consumeItems q { st with
          handler := st.handler.emit (mkStreamRecord Stream.stdout [97] st.clock),
          clock := st.clock + 1,
          events := st.events
            ++ [Effect.logged (mkStreamRecord Stream.stdout [97] st.clock)] } := by
  simp only [consumeItems, processItem_lineA]

@[simp] theorem sentinelCount_replicate_some (n : Nat) (x : List Nat × Stream) :
    sentinelCount (List.replicate n (some x)) = 0 := by
  induction n with
  | zero => simp
  | succ m ih =>
    rw [List.replicate_succ]
    simp [ih]

/-- Consuming exactly as many recorded one-byte lines as the capacity allows
clears the entire buffer: the last emit reaches the capacity and the
inherited `BufferingHandler.flush` zaps the buffer. -/
theorem consumeItems_replicate_flush :
    ∀ (n : Nat) (st : ConsumeState), 1 ≤ n →
      st.handler.buffer.length + n = capacity →
      ∃ st', consumeItems (List.replicate n (some ([97], Stream.stdout))) st
          = Except.ok st' ∧
        st'.handler.buffer = [] ∧ st'.sentinels = st.sentinels := by
  intro n
  induction n with
  | zero =>
    intro st h
    omega
  | succ m ih =>
    intro st _ hlen
    rw [List.replicate_succ, consumeItems_lineA_cons]
    by_cases hm : m = 0
    · subst hm
      have hemit := emit_at_capacity st.handler
        (mkStreamRecord Stream.stdout [97] st.clock) (by omega)
      refine ⟨_, rfl, ?_, rfl⟩
      show (st.handler.emit (mkStreamRecord Stream.stdout [97] st.clock)).buffer = []
      rw [hemit]
    · have hlt : st.handler.buffer.length + 1 < capacity := by omega
      have hemit := emit_below_capacity st.handler
        (mkStreamRecord Stream.stdout [97] st.clock) hlt
      have hlen1 : (st.handler.emit (mkStreamRecord Stream.stdout [97] st.clock)).buffer.length
          = st.handler.buffer.length + 1 := by
        rw [hemit]
        simp
      obtain ⟨st', hok, hbuf, hsent⟩ := ih
        { st with
            handler := st.handler.emit (mkStreamRecord Stream.stdout [97] st.clock),
            clock := st.clock + 1,
            events := st.events
              ++ [Effect.logged (mkStreamRecord Stream.stdout [97] st.clock)] }
        (by omega)
        (show (st.handler.emit (mkStreamRecord Stream.stdout [97] st.clock)).buffer.length
            + m = capacity by omega)
      exact ⟨st', hok, hbuf, hsent⟩

theorem consumeItems_two_sentinels (st : ConsumeState) :
    consumeItems [none, none] st
      = Except.ok { st with
          sentinels := st.sentinels + 1 + 1,
          events := (st.events ++ [Effect.sentinelConsumed])
            ++ [Effect.sentinelConsumed] } := rfl

/-- Introduction form of a successful `Process.init` from a successful
consumer loop. -/
theorem init_eq (args : List String) (q : List QItem) (rc : Int)
    {st : ConsumeState} {rest : List QItem}
    (h : consumeLoop q (initialConsumeState args) = Except.ok (st, rest)) :
    Process.init args q rc = Except.ok
      { args := args,
        log_handler := st.handler.emit ⟨INFO, "INFO", execTimeMsg, st.clock⟩,
        effects := st.events
          ++ [Effect.waited, Effect.logged ⟨INFO, "INFO", execTimeMsg, st.clock⟩],
        returncode := rc } := by
  simp only [Process.init, h]

/-- A run whose child emits 999999 non-empty stdout lines overflows the
1000000-record capacity (together with the initial `Run command` record):
at the moment the capacity is reached the handler flushes and the whole
buffer is zapped, so at return the buffer holds only the final
`Execution time` record. -/
theorem init_overflow (args : List String) (rc : Int) :
    ∃ p, Process.init args
        (List.replicate 999999 (some ([97], Stream.stdout)) ++ [none, none]) rc
      = Except.ok p ∧
      ∃ c, p.log_handler.buffer = [(⟨INFO, "INFO", execTimeMsg, c⟩ : LogRecord)] := by
  have hinitlen : (initialConsumeState args).handler.buffer.length = 1 := by
    rw [init_state_handler]
    rfl
  obtain ⟨st1, hok1, hbuf1, hsent1⟩ := consumeItems_replicate_flush 999999
    (initialConsumeState args) (by omega)
    (by rw [hinitlen]; norm_num [capacity])
  have hok2 : consumeItems
      (List.replicate 999999 (some ([97], Stream.stdout)) ++ [none, none])
      (initialConsumeState args)
      = Except.ok { st1 with
          sentinels := st1.sentinels + 1 + 1,
          events := (st1.events ++ [Effect.sentinelConsumed])
            ++ [Effect.sentinelConsumed] } := by
    rw [consumeItems_append, hok1]
    show consumeItems [none, none] st1 = _
    rw [consumeItems_two_sentinels]
  have hshape : (List.replicate 999999 (some ([97], Stream.stdout))
        ++ [none, none] : List QItem)
      = (List.replicate 999999 (some ([97], Stream.stdout)) ++ [none]) ++ [none] :=
    (List.append_assoc
      (List.replicate 999999 (some ([97], Stream.stdout))) [none] [none]).symm
  have hsent0 : (initialConsumeState args).sentinels = 0 := rfl
  have hcnt2 : (initialConsumeState args).sentinels
      + sentinelCount ((List.replicate 999999 (some ([97], Stream.stdout))
        ++ [none]) ++ [none]) = 2 := by
    rw [hsent0, sentinelCount_append, sentinelCount_append,
      sentinelCount_replicate_some]
    rfl
  have hloop : consumeLoop
      (List.replicate 999999 (some ([97], Stream.stdout)) ++ [none, none])
      (initialConsumeState args)
      = (consumeItems
          (List.replicate 999999 (some ([97], Stream.stdout)) ++ [none, none])
          (initialConsumeState args)).map (fun s => (s, [])) := by
    rw [hshape]
    exact consumeLoop_eq_consumeItems _ _ hcnt2
  have hh : st1.handler = ⟨[]⟩ := by
    cases hsth : st1.handler with
    | mk b =>
      rw [hsth] at hbuf1
      simp at hbuf1
      rw [hbuf1]
  have hfin : consumeLoop
      (List.replicate 999999 (some ([97], Stream.stdout)) ++ [none, none])
      (initialConsumeState args)
      = Except.ok ({ st1 with
          sentinels := st1.sentinels + 1 + 1,
          events := (st1.events ++ [Effect.sentinelConsumed])
            ++ [Effect.sentinelConsumed] }, []) := by
    rw [hloop, hok2]
    rfl
  refine ⟨_, init_eq args _ rc hfin, st1.clock, ?_⟩
  show (st1.handler.emit ⟨INFO, "INFO", execTimeMsg, st1.clock⟩).buffer
    = [(⟨INFO, "INFO", execTimeMsg, st1.clock⟩ : LogRecord)]
  rw [hh, emit_below_capacity ⟨[]⟩ _ (by norm_num [capacity])]
  rfl

/-! ### Concrete runs used as witnesses and counterexamples -/

/-- The result of running a command that produces no output and exits 0:
only the two `INFO` records are in the buffer. -/
def pEmpty : Process :=
  { args := ["ls"],
    log_handler := ⟨[runCmdRecord ["ls"], ⟨INFO, "INFO", execTimeMsg, 1⟩]⟩,
    effects := [Effect.logged (runCmdRecord ["ls"]), Effect.spawned ["ls"],
      Effect.threadStarted Stream.stdout, Effect.threadStarted Stream.stderr,
      Effect.sentinelConsumed, Effect.sentinelConsumed,
      Effect.waited, Effect.logged ⟨INFO, "INFO", execTimeMsg, 1⟩],
    returncode := 0 }

theorem pEmpty_run : Process.init ["ls"] [none, none] 0 = Except.ok pEmpty := by
  rfl

/-- Queue of a run with one stdout line `hi` and one stderr line `!`, the
stdout line arriving first. -/
def qTwo : List QItem :=
  [some ([104, 105], Stream.stdout), some ([33], Stream.stderr), none, none]

def pTwo : Process :=
  { args := ["x"],
    log_handler := ⟨[runCmdRecord ["x"],
      mkStreamRecord Stream.stdout [104, 105] 1,
      mkStreamRecord Stream.stderr [33] 2,
      ⟨INFO, "INFO", execTimeMsg, 3⟩]⟩,
    effects := [Effect.logged (runCmdRecord ["x"]), Effect.spawned ["x"],
      Effect.threadStarted Stream.stdout, Effect.threadStarted Stream.stderr,
      Effect.logged (mkStreamRecord Stream.stdout [104, 105] 1),
      Effect.logged (mkStreamRecord Stream.stderr [33] 2),
      Effect.sentinelConsumed, Effect.sentinelConsumed,
      Effect.waited, Effect.logged ⟨INFO, "INFO", execTimeMsg, 3⟩],
    returncode := 0 }

theorem pTwo_run : Process.init ["x"] qTwo 0 = Except.ok pTwo := by
  rfl

theorem qTwo_interleaving :
    Interleaving (stdoutStderrReader Stream.stdout [[104, 105]] none)
      (stdoutStderrReader Stream.stderr [[33]] none) qTwo :=
  Interleaving.left (Interleaving.right (Interleaving.left
    (Interleaving.right Interleaving.nil)))

/-- The same two reader push sequences interleaved the other way round: the
stderr line arrives first. -/
def qTwoRev : List QItem :=
  [some ([33], Stream.stderr), some ([104, 105], Stream.stdout), none, none]

def pTwoRev : Process :=
  { args := ["x"],
    log_handler := ⟨[runCmdRecord ["x"],
      mkStreamRecord Stream.stderr [33] 1,
      mkStreamRecord Stream.stdout [104, 105] 2,
      ⟨INFO, "INFO", execTimeMsg, 3⟩]⟩,
    effects := [Effect.logged (runCmdRecord ["x"]), Effect.spawned ["x"],
      Effect.threadStarted Stream.stdout, Effect.threadStarted Stream.stderr,
      Effect.logged (mkStreamRecord Stream.stderr [33] 1),
      Effect.logged (mkStreamRecord Stream.stdout [104, 105] 2),
      Effect.sentinelConsumed, Effect.sentinelConsumed,
      Effect.waited, Effect.logged ⟨INFO, "INFO", execTimeMsg, 3⟩],
    returncode := 0 }

theorem pTwoRev_run : Process.init ["x"] qTwoRev 0 = Except.ok pTwoRev := by
  rfl

theorem qTwoRev_interleaving :
    Interleaving (stdoutStderrReader Stream.stdout [[104, 105]] none)
      (stdoutStderrReader Stream.stderr [[33]] none) qTwoRev :=
  Interleaving.right (Interleaving.left (Interleaving.left
    (Interleaving.right Interleaving.nil)))

/-- The same run as `pTwo` when the child exits with status 1. -/
def pTwoF : Process :=
  { pTwo with returncode := 1 }

theorem pTwoF_run : Process.init ["x"] qTwo 1 = Except.ok pTwoF := by
  rfl

/-- The captured-stream records of a buffer with their stream tag, in
buffer order: the cross-stream interleaving visible in the buffer. -/
def streamMsgs (b : List LogRecord) : List (String × List Nat) :=
  b.filterMap (fun r =>
    if r.levelname = "STDOUT" ∨ r.levelname = "STDERR"
    then some (r.levelname, r.msg) else none)

/-- A text in the stdout projection comes from a full `STDOUT` record in
the buffer. -/
theorem stdoutMsgs_mem {t : List Nat} {b : List LogRecord}
    (h : t ∈ stdoutMsgs b) :
    ∃ c, (⟨STDOUT, "STDOUT", t, c⟩ : LogRecord) ∈ b := by
  obtain ⟨r, hr, hfr⟩ := List.mem_filterMap.mp h
  by_cases hc : r.levelno = STDOUT ∧ r.levelname = "STDOUT"
  · rw [if_pos hc] at hfr
    obtain ⟨hc1, hc2⟩ := hc
    obtain ⟨no, nm, m, c⟩ := r
    simp only at hc1 hc2 hfr
    rw [Option.some.injEq] at hfr
    subst hc1
    subst hc2
    subst hfr
    exact ⟨c, hr⟩
  · rw [if_neg hc] at hfr
    exact absurd hfr (by simp)

/-- A text in the stderr projection comes from a full `STDERR` record in
the buffer. -/
theorem stderrMsgs_mem {t : List Nat} {b : List LogRecord}
    (h : t ∈ stderrMsgs b) :
    ∃ c, (⟨STDERR, "STDERR", t, c⟩ : LogRecord) ∈ b := by
  obtain ⟨r, hr, hfr⟩ := List.mem_filterMap.mp h
  by_cases hc : r.levelno = STDERR ∧ r.levelname = "STDERR"
  · rw [if_pos hc] at hfr
    obtain ⟨hc1, hc2⟩ := hc
    obtain ⟨no, nm, m, c⟩ := r
    simp only at hc1 hc2 hfr
    rw [Option.some.injEq] at hfr
    subst hc1
    subst hc2
    subst hfr
    exact ⟨c, hr⟩
  · rw [if_neg hc] at hfr
    exact absurd hfr (by simp)

theorem procLines_mem {l t : List Nat} {lines : List (List Nat)}
    (hl : l ∈ lines) (ht : lineText l = some t) : t ∈ procLines lines :=
  List.mem_filterMap.mpr ⟨l, hl, ht⟩

/-! ### Claims -/

/-- **C2, counterexample.**  The claim states that constructing a process
watcher with a command has no side effects — no child launch, no logging —
until `run` is invoked.  In the code the object constructed with a command
is `Process`, and `Process.__init__` performs the entire run eagerly: even
for the trivial command `ls` with no output, construction logs a record,
spawns the child, starts the reader threads and waits for the child. -/
theorem C2_construction_is_eager :
    Process.init ["ls"] [none, none] 0 = Except.ok pEmpty ∧
    Effect.spawned ["ls"] ∈ pEmpty.effects ∧
    (∃ r, Effect.logged r ∈ pEmpty.effects) ∧
    Effect.waited ∈ pEmpty.effects :=
  ⟨pEmpty_run, by simp [pEmpty], ⟨runCmdRecord ["ls"], by simp [pEmpty]⟩,
    by simp [pEmpty]⟩

/-- **C2, amended.**  `Process` construction with a command is eager: for
every successful construction, its effect trace begins with logging the
`Run command` record, spawning the child and starting the two reader
threads, and the trace contains the wait for the child's exit — all the
launching work happens inside construction (which `Watch.run` triggers),
not deferred past it. -/
theorem C2_amended_construction_performs_run :
    ∀ (args : List String) (q : List QItem) (rc : Int) (p : Process),
      Process.init args q rc = Except.ok p →
      p.effects.take 4 = [Effect.logged (runCmdRecord args), Effect.spawned args,
        Effect.threadStarted Stream.stdout, Effect.threadStarted Stream.stderr] ∧
      Effect.waited ∈ p.effects := by
  intro args q rc p h
  obtain ⟨st, rest, hcl, hp⟩ := init_ok_elim h
  obtain ⟨δ, hev, hwi, hside⟩ := consumeLoop_trace q (initialConsumeState args)
    st rest hcl
  constructor
  · rw [hp]
    show (st.events ++ _).take 4 = _
    rw [hev, List.append_assoc]
    have h4 : (initialConsumeState args).events.length = 4 := rfl
    rw [← h4, List.take_left]
    rfl
  · rw [hp]
    exact List.mem_append.mpr (Or.inr (by simp))

theorem C2_witness :
    pEmpty.effects.take 4 = [Effect.logged (runCmdRecord ["ls"]),
      Effect.spawned ["ls"], Effect.threadStarted Stream.stdout,
      Effect.threadStarted Stream.stderr] ∧
    Effect.waited ∈ pEmpty.effects :=
  C2_amended_construction_performs_run ["ls"] [none, none] 0 pEmpty pEmpty_run

/-- **C3, counterexample.**  The claim states that invalid bytes in a
captured line are handled by a lossy/replacement decoding and never abort
capture.  The code decodes with `line.decode('utf-8')`, the strict default:
a single invalid byte `0xFF` on stdout raises `UnicodeDecodeError` inside
the consumer loop and the run aborts with that error. -/
theorem C3_invalid_byte_aborts_run :
    Process.init ["sh"] [some ([255], Stream.stdout), none, none] 0
      = Except.error ⟨[255]⟩ := by
  rfl

/-- **C3, amended.**  Decoding of captured lines is strict UTF-8: a
non-empty line that is not valid UTF-8 raises a `UnicodeDecodeError` that
aborts the consumer loop (and so the whole capture) immediately; no
replacement decoding takes place. -/
theorem C3_amended_strict_decode :
    ∀ (line : List Nat) (s : Stream) (q : List QItem) (st : ConsumeState),
      line ≠ [] → utf8Decode line = none →
      consumeLoop (some (line, s) :: q) st = Except.error ⟨line⟩ := by
  intro line s q st hne hdec
  have hemp : line.isEmpty = false := by
    cases line with
    | nil => exact absurd rfl hne
    | cons a t => rfl
  have hpi : processItem st line s = Except.error ⟨line⟩ := by
    simp [processItem, hemp, hdec]
  simp [consumeLoop, hpi]

theorem C3_witness :
    consumeLoop [some ([255], Stream.stdout)] ⟨⟨[]⟩, 0, 0, []⟩
      = Except.error ⟨[255]⟩ :=
  C3_amended_strict_decode [255] Stream.stdout [] ⟨⟨[]⟩, 0, 0, []⟩ (by simp) rfl

/-- **C4, counterexample.**  The claim states that exceeding the buffer
capacity is surfaced as an unrecoverable error and that no previously
appended record is ever silently dropped.  In the code the handler is a
`BufferingHandler` whose inherited `flush` zaps the buffer: appending
exactly 1000000 records to an empty handler leaves the buffer empty — every
record was silently dropped and no error was raised (`emit` is total). -/
theorem C4_overflow_silently_clears :
    (emitAll ⟨[]⟩
      (List.replicate 1000000 (⟨STDOUT, "STDOUT", [97], 0⟩ : LogRecord))).buffer
      = [] := by
  refine emitAll_reaching_capacity _ _ ?_ ?_
  · intro h
    have hlen := congrArg List.length h
    rw [List.length_replicate] at hlen
    exact absurd hlen (by decide)
  · rw [List.length_replicate]
    rfl

/-- **C4, amended.**  Below the fixed capacity of 1000000 records every
appended record remains in the buffer, in append order; the append that
reaches the capacity triggers the inherited `BufferingHandler.flush`,
which silently clears the entire buffer — no error is surfaced. -/
theorem C4_amended_capacity_behaviour :
    ∀ (h : LoggingHandler) (rs : List LogRecord),
      (h.buffer.length + rs.length < capacity →
        (emitAll h rs).buffer = h.buffer ++ rs) ∧
      (rs ≠ [] → h.buffer.length + rs.length = capacity →
        (emitAll h rs).buffer = []) :=
  fun h rs =>
    ⟨fun hlt => emitAll_below_capacity rs h hlt,
     fun hne hcap => emitAll_reaching_capacity rs h hne hcap⟩

theorem C4_witness :
    (emitAll ⟨[]⟩ [(⟨STDOUT, "STDOUT", [97], 0⟩ : LogRecord)]).buffer
        = [] ++ [(⟨STDOUT, "STDOUT", [97], 0⟩ : LogRecord)] ∧
    (emitAll ⟨List.replicate 999999 (⟨STDOUT, "STDOUT", [97], 0⟩ : LogRecord)⟩
        [(⟨STDOUT, "STDOUT", [97], 0⟩ : LogRecord)]).buffer = [] :=
  ⟨(C4_amended_capacity_behaviour ⟨[]⟩ _).1 (by decide),
   (C4_amended_capacity_behaviour
      ⟨List.replicate 999999 (⟨STDOUT, "STDOUT", [97], 0⟩ : LogRecord)⟩ _).2
    (by decide)
    (by
      have h9 : (⟨List.replicate 999999 (⟨STDOUT, "STDOUT", [97], 0⟩ : LogRecord)⟩
            : LoggingHandler).buffer
          = List.replicate 999999 (⟨STDOUT, "STDOUT", [97], 0⟩ : LogRecord) := rfl
      rw [h9, List.length_replicate]
      rfl)⟩

/-- **C5, confirmed.**  Every execution of a pipe reader — also one that
throws after `k` lines, because of the `finally` block — pushes exactly one
sentinel, as its last item; consequently any interleaving the two readers
produce contains exactly two sentinels with the last item a sentinel, and
the consumer loop (which stops after two sentinels) never exhausts the
queue while still waiting: whenever it returns it has seen both sentinels
and consumed every item. -/
theorem C5_sentinel_guarantee :
    (∀ (s : Stream) (lines : List (List Nat)) (fault : Option Nat),
      sentinelCount (stdoutStderrReader s lines fault) = 1 ∧
      (stdoutStderrReader s lines fault).getLast? = some none) ∧
    (∀ (la lb : List (List Nat)) (fa fb : Option Nat) (q : List QItem)
      (st stf : ConsumeState) (rest : List QItem),
      Interleaving (stdoutStderrReader Stream.stdout la fa)
        (stdoutStderrReader Stream.stderr lb fb) q →
      st.sentinels = 0 →
      consumeLoop q st = Except.ok (stf, rest) →
      stf.sentinels = 2 ∧ rest = []) := by
  constructor
  · intro s lines fault
    refine ⟨reader_sentinelCount s lines fault, ?_⟩
    cases fault <;> simp [stdoutStderrReader]
  · intro la lb fa fb q st stf rest hq hzero hloop
    obtain ⟨q0, hq0⟩ := interleaving_ends_with hq
      (reader_ends_with Stream.stdout la fa) (reader_ends_with Stream.stderr lb fb)
    have hcnt : sentinelCount q = 2 := by
      rw [interleaving_sentinelCount hq, reader_sentinelCount, reader_sentinelCount]
    have heq : consumeLoop q st = (consumeItems q st).map (fun s => (s, [])) := by
      rw [hq0]
      refine consumeLoop_eq_consumeItems _ _ ?_
      rw [← hq0, hcnt, hzero]
    rw [heq] at hloop
    cases hci : consumeItems q st with
    | error e => rw [hci] at hloop; simp [Except.map] at hloop
    | ok stf2 =>
      rw [hci] at hloop
      simp only [Except.map, Except.ok.injEq, Prod.mk.injEq] at hloop
      obtain ⟨h1, h2⟩ := hloop
      constructor
      · rw [← h1, consumeItems_sentinels q st stf2 hci, hzero, hcnt]
      · exact h2.symm

theorem C5_witness :
    (sentinelCount (stdoutStderrReader Stream.stdout [[104, 105]] (some 0)) = 1 ∧
      (stdoutStderrReader Stream.stdout [[104, 105]] (some 0)).getLast?
        = some none) ∧
    ((⟨⟨[mkStreamRecord Stream.stdout [97] 0]⟩, 2, 1,
        [Effect.logged (mkStreamRecord Stream.stdout [97] 0),
         Effect.sentinelConsumed, Effect.sentinelConsumed]⟩ : ConsumeState).sentinels
      = 2 ∧ ([] : List QItem) = []) :=
  ⟨C5_sentinel_guarantee.1 Stream.stdout [[104, 105]] (some 0),
   C5_sentinel_guarantee.2 [[97]] [] none none
    [some ([97], Stream.stdout), none, none] ⟨⟨[]⟩, 0, 0, []⟩
    ⟨⟨[mkStreamRecord Stream.stdout [97] 0]⟩, 2, 1,
      [Effect.logged (mkStreamRecord Stream.stdout [97] 0),
       Effect.sentinelConsumed, Effect.sentinelConsumed]⟩ []
    (Interleaving.left (Interleaving.left (Interleaving.right Interleaving.nil)))
    rfl (by rfl)⟩

/-- **C7, confirmed.**  A non-zero exit status is not by itself an error of
`run`: for a completed process, `Watch.run` raises `CommandWatcherError`
exactly when the `raise_exceptions` policy is enabled, the return code is
non-zero and the return code is not in `ignore_exceptions`; otherwise the
status is returned as data on the process object. -/
theorem C7_nonzero_exit_policy (w : Watch) (ignore_exceptions : List Int)
    {args : List String} {q : List QItem} {rc : Int} {p : Process}
    (hok : Process.init args q rc = Except.ok p) :
    ((∃ w' e, Watch.run w args q rc ignore_exceptions
        = Except.ok (w', Except.error e))
      ↔ (w.raise_exceptions = true ∧ rc ≠ 0 ∧ rc ∉ ignore_exceptions)) ∧
    (¬(w.raise_exceptions = true ∧ rc ≠ 0 ∧ rc ∉ ignore_exceptions) →
      ∃ w', Watch.run w args q rc ignore_exceptions
          = Except.ok (w', Except.ok p) ∧ p.returncode = rc) := by
  have hret : p.returncode = rc := by
    obtain ⟨st, rest, _, hp⟩ := init_ok_elim hok
    rw [hp]
  constructor
  · constructor
    · rintro ⟨w', e, hrun⟩
      by_contra hneg
      simp only [Watch.run, hok] at hrun
      rw [if_neg (by rw [hret]; exact hneg)] at hrun
      simp at hrun
    · rintro ⟨h1, h2, h3⟩
      have hrun : Watch.run w args q rc ignore_exceptions
          = Except.ok ({ w with processes := w.processes ++ [p] },
            Except.error ⟨strCps (" ".intercalate (["The command"] ++ p.args
              ++ ["exists with an non-zero return code."]))⟩) := by
        simp only [Watch.run, hok]
        rw [if_pos (by rw [hret]; exact ⟨h1, h2, h3⟩)]
      exact ⟨_, _, hrun⟩
  · intro hneg
    have hrun : Watch.run w args q rc ignore_exceptions
        = Except.ok ({ w with processes := w.processes ++ [p] }, Except.ok p) := by
      simp only [Watch.run, hok]
      rw [if_neg (by rw [hret]; exact hneg)]
    exact ⟨_, hrun, hret⟩

theorem C7_witness :
    ((∃ w' e, Watch.run ⟨[], true⟩ ["x"] qTwo 1 []
        = Except.ok (w', Except.error e))
      ↔ ((⟨[], true⟩ : Watch).raise_exceptions = true ∧ (1 : Int) ≠ 0 ∧
          (1 : Int) ∉ ([] : List Int))) ∧
    (¬((⟨[], true⟩ : Watch).raise_exceptions = true ∧ (1 : Int) ≠ 0 ∧
        (1 : Int) ∉ ([] : List Int)) →
      ∃ w', Watch.run ⟨[], true⟩ ["x"] qTwo 1 []
          = Except.ok (w', Except.ok pTwoF) ∧ pTwoF.returncode = 1) :=
  C7_nonzero_exit_policy ⟨[], true⟩ [] pTwoF_run

/-- **C8, confirmed.**  A captured line that decodes to a whitespace-only
(or empty) text produces no record and does not stop consumption: removing
such a line from anywhere in the queue leaves the consumer's final state —
buffer, sentinel count, clock and trace — unchanged, so all subsequent
lines are recorded exactly as without it. -/
theorem C8_blank_line_no_record {line cps : List Nat} (s : Stream)
    (q1 q2 : List QItem) (st : ConsumeState)
    (hdec : utf8Decode line = some cps) (hstrip : strip cps = []) :
    (consumeLoop (q1 ++ some (line, s) :: q2) st).map Prod.fst
      = (consumeLoop (q1 ++ q2) st).map Prod.fst := by
  have hskip : ∀ st0 : ConsumeState, processItem st0 line s = Except.ok st0 := by
    intro st0
    by_cases he : line.isEmpty = true
    · simp [processItem, he]
    · simp [processItem, he, hdec, hstrip]
  induction q1 generalizing st with
  | nil =>
    simp only [List.nil_append, consumeLoop, hskip st]
  | cons x xs ih =>
    cases x with
    | none =>
      simp only [List.cons_append, consumeLoop]
      split
      · simp [Except.map]
      · exact ih _
    | some ls =>
      obtain ⟨l, s2⟩ := ls
      simp only [List.cons_append, consumeLoop]
      cases hpi : processItem st l s2 with
      | error e => simp [Except.map]
      | ok st1 =>
        simp only
        exact ih st1

theorem C8_witness :
    (consumeLoop ([] ++ some ([226, 128, 175], Stream.stdout)
        :: [some ([104, 105], Stream.stdout), none, none])
      (⟨⟨[]⟩, 0, 0, []⟩ : ConsumeState)).map Prod.fst
      = (consumeLoop ([] ++ [some ([104, 105], Stream.stdout), none, none])
        (⟨⟨[]⟩, 0, 0, []⟩ : ConsumeState)).map Prod.fst :=
  C8_blank_line_no_record Stream.stdout []
    [some ([104, 105], Stream.stdout), none, none] ⟨⟨[]⟩, 0, 0, []⟩ rfl rfl

/-- **C9, confirmed.**  For every buffer state: the `stdout` view is the
messages of exactly the records whose level name is `STDOUT` (the records
originating from the child's stdout), in buffer order, joined by newlines;
likewise the `stderr` view; and `all_records` renders every record — of
any severity — through the full formatter, one formatted entry per record,
in buffer order, joined by newlines. -/
theorem C9_views (h : LoggingHandler) :
    LoggingHandler.stdout h
      = joinNL ((h.buffer.filter (fun r => decide (r.levelname = "STDOUT"))).map
          (fun r => r.msg)) ∧
    LoggingHandler.stderr h
      = joinNL ((h.buffer.filter (fun r => decide (r.levelname = "STDERR"))).map
          (fun r => r.msg)) ∧
    LoggingHandler.all_records h = joinNL (h.buffer.map formatRecord) := by
  refine ⟨?_, ?_, ?_⟩
  · unfold LoggingHandler.stdout
    rw [foldl_filter_acc (fun r : LogRecord => r.levelname = "STDOUT")
      (fun r => r.msg) h.buffer []]
    rw [List.nil_append]
  · unfold LoggingHandler.stderr
    rw [foldl_filter_acc (fun r : LogRecord => r.levelname = "STDERR")
      (fun r => r.msg) h.buffer []]
    rw [List.nil_append]
  · unfold LoggingHandler.all_records
    rw [foldl_map_acc formatRecord h.buffer []]
    rw [List.nil_append]

theorem C9_witness :
    LoggingHandler.stdout pTwo.log_handler
      = joinNL ((pTwo.log_handler.buffer.filter
          (fun r => decide (r.levelname = "STDOUT"))).map (fun r => r.msg)) ∧
    LoggingHandler.stderr pTwo.log_handler
      = joinNL ((pTwo.log_handler.buffer.filter
          (fun r => decide (r.levelname = "STDERR"))).map (fun r => r.msg)) ∧
    LoggingHandler.all_records pTwo.log_handler
      = joinNL (pTwo.log_handler.buffer.map formatRecord) :=
  C9_views pTwo.log_handler

/-- **C10, confirmed.**  `Watch.run` appends the completed process to
`self.processes` before evaluating the exit-status policy: whatever the
policy decides — return the process or raise `CommandWatcherError` — the
watcher's state after `run` contains the new process (and with it its
captured log records); state is not rolled back on error. -/
theorem C10_process_recorded_before_raise (w : Watch)
    (ignore_exceptions : List Int) {args : List String} {q : List QItem}
    {rc : Int} {p : Process} {w' : Watch}
    {r : Except CommandWatcherError Process}
    (hok : Process.init args q rc = Except.ok p)
    (hrun : Watch.run w args q rc ignore_exceptions = Except.ok (w', r)) :
    w'.processes = w.processes ++ [p] := by
  simp only [Watch.run, hok] at hrun
  split at hrun <;>
  · rw [Except.ok.injEq, Prod.mk.injEq] at hrun
    rw [← hrun.1]

theorem C10_witness :
    (⟨[pTwoF], true⟩ : Watch).processes
      = (⟨[], true⟩ : Watch).processes ++ [pTwoF] :=
  C10_process_recorded_before_raise ⟨[], true⟩ [] pTwoF_run (by rfl)

/-- **C1, counterexample.**  The claim states that for every run, at return
the buffer contains a record for every non-empty line the child emitted.
A run whose child emits 999999 non-empty stdout lines reaches the 1000000
buffer capacity (together with the initial `Run command` record); the
handler's inherited flush zaps the buffer, so at return the buffer holds
exactly one record — the final `Execution time` `INFO` record — and no
`STDOUT` record at all. -/
theorem C1_overflow_loses_lines :
    (Process.init ["sh"]
      (List.replicate 999999 (some ([97], Stream.stdout)) ++ [none, none]) 0).map
      (fun p => p.log_handler.buffer.map (fun r => r.levelname))
      = Except.ok ["INFO"] := by
  obtain ⟨p, hp, c, hbuf⟩ := init_overflow ["sh"] 0
  rw [hp]
  simp [Except.map, hbuf]

/-- **C1, amended.**  For every run whose queue stays below the buffer
capacity: at return the buffer contains, for every line of either stream
whose decoded and stripped text is non-empty, a record with that text and
the severity of its stream (`STDOUT` 5 for stdout, `STDERR` 35 for
stderr); and the run returns only after both reader sentinels have been
consumed and the child has been waited for — the effect trace ends with
the wait and the final log record, and both sentinel consumptions precede
the wait. -/
theorem C1_amended_buffer_complete {la lb : List (List Nat)}
    {args : List String} {rc : Int} {q : List QItem} {p : Process}
    (hq : Interleaving (stdoutStderrReader Stream.stdout la none)
      (stdoutStderrReader Stream.stderr lb none) q)
    (hcap : q.length + 2 < capacity)
    (hrun : Process.init args q rc = Except.ok p) :
    (∀ l ∈ la, ∀ t, lineText l = some t →
      ∃ c, (⟨STDOUT, "STDOUT", t, c⟩ : LogRecord) ∈ p.log_handler.buffer) ∧
    (∀ l ∈ lb, ∀ t, lineText l = some t →
      ∃ c, (⟨STDERR, "STDERR", t, c⟩ : LogRecord) ∈ p.log_handler.buffer) ∧
    (∃ pre c,
      p.effects = pre ++ [Effect.waited, Effect.logged ⟨INFO, "INFO", execTimeMsg, c⟩] ∧
      sentinelEvents pre = 2 ∧ Effect.waited ∉ pre) := by
  obtain ⟨h1, h2, _, _, h5⟩ := init_ok_main hq hcap hrun
  refine ⟨?_, ?_, h5⟩
  · intro l hl t ht
    have hm : t ∈ procLines la := procLines_mem hl ht
    rw [← h1] at hm
    exact stdoutMsgs_mem hm
  · intro l hl t ht
    have hm : t ∈ procLines lb := procLines_mem hl ht
    rw [← h2] at hm
    exact stderrMsgs_mem hm

theorem C1_witness :
    (∃ c, (⟨STDOUT, "STDOUT", [104, 105], c⟩ : LogRecord)
      ∈ pTwo.log_handler.buffer) ∧
    (∃ c, (⟨STDERR, "STDERR", [33], c⟩ : LogRecord)
      ∈ pTwo.log_handler.buffer) ∧
    (∃ pre c, pTwo.effects
        = pre ++ [Effect.waited, Effect.logged ⟨INFO, "INFO", execTimeMsg, c⟩] ∧
      sentinelEvents pre = 2 ∧ Effect.waited ∉ pre) := by
  have h := C1_amended_buffer_complete qTwo_interleaving (by decide) pTwo_run
  exact ⟨h.1 [104, 105] (by simp) [104, 105] rfl,
    h.2.1 [33] (by simp) [33] rfl, h.2.2⟩

/-- **C6, counterexample.**  The claim states that the buffer's record
order equals the append order and that the stdout-only view lists the
child's stdout lines in their original order.  In the overflowing run of
999999 stdout lines the handler flush empties the buffer, so the buffer is
not the append sequence and the stdout view is empty although the child
emitted stdout lines. -/
theorem C6_overflow_breaks_order :
    (Process.init ["sh"]
      (List.replicate 999999 (some ([97], Stream.stdout)) ++ [none, none]) 0).map
      (fun p => LoggingHandler.stdout p.log_handler) = Except.ok [] := by
  obtain ⟨p, hp, c, hbuf⟩ := init_overflow ["sh"] 0
  rw [hp]
  simp only [Except.map]
  have hview : LoggingHandler.stdout p.log_handler = [] := by
    unfold LoggingHandler.stdout
    rw [hbuf]
    rfl
  rw [hview]

/-- **C6, amended.**  For every run whose queue stays below the buffer
capacity, the captured-stream projections of the buffer preserve per-stream
order exactly: the stdout records are precisely the recorded texts of the
child's stdout lines in their original order, and likewise for stderr.
Across the two streams no order is guaranteed: two interleavings of the
same reader push sequences produce buffers whose cross-stream record
orders differ. -/
theorem C6_amended_per_stream_order :
    (∀ (la lb : List (List Nat)) (args : List String) (rc : Int)
      (q : List QItem) (p : Process),
      Interleaving (stdoutStderrReader Stream.stdout la none)
        (stdoutStderrReader Stream.stderr lb none) q →
      q.length + 2 < capacity →
      Process.init args q rc = Except.ok p →
      stdoutMsgs p.log_handler.buffer = procLines la ∧
      stderrMsgs p.log_handler.buffer = procLines lb) ∧
    (∃ p1 p2 : Process,
      Process.init ["x"] qTwo 0 = Except.ok p1 ∧
      Process.init ["x"] qTwoRev 0 = Except.ok p2 ∧
      Interleaving (stdoutStderrReader Stream.stdout [[104, 105]] none)
        (stdoutStderrReader Stream.stderr [[33]] none) qTwo ∧
      Interleaving (stdoutStderrReader Stream.stdout [[104, 105]] none)
        (stdoutStderrReader Stream.stderr [[33]] none) qTwoRev ∧
      streamMsgs p1.log_handler.buffer ≠ streamMsgs p2.log_handler.buffer) := by
  constructor
  · intro la lb args rc q p hq hcap hrun
    obtain ⟨h1, h2, _, _, _⟩ := init_ok_main hq hcap hrun
    exact ⟨h1, h2⟩
  · exact ⟨pTwo, pTwoRev, pTwo_run, pTwoRev_run, qTwo_interleaving,
      qTwoRev_interleaving, by decide⟩

theorem C6_witness :
    stdoutMsgs pTwo.log_handler.buffer = procLines [[104, 105]] ∧
    stderrMsgs pTwo.log_handler.buffer = procLines [[33]] :=
  C6_amended_per_stream_order.1 [[104, 105]] [[33]] ["x"] 0 qTwo pTwo
    qTwo_interleaving (by decide) pTwo_run

end CommandWatcher
